import Mathlib

/-!
Verification of the Cosine Cartographer audio engine core
(`src/App.jsx`): frequency model, LFO modulation engine, clipping
guard, oscilloscope sampler, tap-tempo estimator and phase-reset
coordinator.  Gains, volumes, timestamps and analyser samples are
modelled with exact rationals; the LFO path, which calls the sine
function, is modelled over the reals.
-/

/-! ## Frequency Model (`calculateFrequencies`) -/

/-- The fixed ratio table `beatRatios = [0, 0.25, 0.5, 1, 2, 4, 8, 16]`. -/
def beatRatios : List ℚ := [0, 1/4, 1/2, 1, 2, 4, 8, 16]

/-- `calculateFrequencies`: `beatHz = bpm / 60`; channel 0 gets `rootFreq`,
every other channel `idx` gets `rootFreq + beatHz * ratio`. -/
def calculateFrequencies (rootFreq bpm : ℚ) (ratios : List ℚ) : List ℚ :=
  let beatHz := bpm / 60
  ratios.mapIdx fun idx ratio =>
    if idx = 0 then rootFreq else rootFreq + beatHz * ratio

/-! ## Clipping Guard (inside `draw`) -/

/-- The clipping scan of `draw`: true when some sample of the analyser
frame has magnitude above 0.95. -/
def isClipping (data : List ℚ) : Bool :=
  data.any fun v => decide (0.95 < |v|)

/-- One tick of the clipping guard: when the frame clips and
`masterVolume > 0.1`, set `masterVolume` to `max 0.1 (masterVolume * 0.95)`;
otherwise leave it unchanged. -/
def guardStep (masterVolume : ℚ) (data : List ℚ) : ℚ :=
  if isClipping data ∧ 0.1 < masterVolume then
    max 0.1 (masterVolume * 0.95)
  else
    masterVolume

/-- The clipping guard run over a sequence of ticks, one analyser frame
per tick. -/
def guardTicks (frames : List (List ℚ)) (masterVolume : ℚ) : ℚ :=
  frames.foldl guardStep masterVolume

/-! ## Oscilloscope Sampler (inside `draw`) -/

/-- `samplesToShow = Math.min(Math.floor(data.length / timeScale), data.length)`. -/
def samplesToShow (dataLength : ℕ) (timeScale : ℚ) : ℕ :=
  min (Int.toNat ⌊(dataLength : ℚ) / timeScale⌋) dataLength

/-- The polyline produced by the oscilloscope loop: point `i` sits at
`x = i * sliceWidth` with `sliceWidth = width / samplesToShow`, and at
`y = ((data[i] + 1) / 2) * height`. -/
def samplePoints (data : List ℚ) (timeScale width height : ℚ) : List (ℚ × ℚ) :=
  let n := samplesToShow data.length timeScale
  let sliceWidth := width / (n : ℚ)
  (List.range n).map fun (i : ℕ) => ((i : ℚ) * sliceWidth, ((data.getD i 0 + 1) / 2) * height)

/-! ## Tap-Tempo Estimator (`handleTapTempo`) -/

/-- One call of `handleTapTempo`, embedded faithfully, aliasing
included: the local `taps` names the array the ref held on entry; on a
long gap (last buffered tap more than 2000 ms before `now`) the ref is
pointed at a fresh empty array, but `taps.push(now)`, `taps.shift()`
and the estimate still act on the old array `taps`.  The first
component is the array the ref holds after the call (the persistent
buffer), the second the bpm written by `setBpm`, none when no estimate
was produced. -/
def recordTapCode (buffer : List ℚ) (now : ℚ) : List ℚ × Option ℤ :=
  let isReset : Bool := match buffer.getLast? with
    | some last => decide (2000 < now - last)
    | none => false
  let taps1 := buffer ++ [now]
  let taps2 := if 8 < taps1.length then taps1.tail else taps1
  let est : Option ℤ :=
    if 2 ≤ taps2.length then
      let totalInterval := (taps2.zip taps2.tail).foldl (fun acc p => acc + (p.2 - p.1)) 0
      let avgInterval := totalInterval / ((taps2.length : ℚ) - 1)
      some (max 1 (min 300 (round (60000 / avgInterval))))
    else none
  (if isReset then [] else taps2, est)

/-- A whole tapping session: fold `handleTapTempo` over the tap
timestamps, threading the persistent ref array and the last bpm written
by `setBpm` (the tempo keeps its previous value on calls that produce
no estimate). -/
def tapSession (times : List ℚ) : List ℚ × Option ℤ :=
  times.foldl (fun st t =>
    let r := recordTapCode st.1 t
    (r.1, if r.2.isSome then r.2 else st.2)) ([], none)

/-! ## Phase Reset Coordinator (`resetOscillators`) -/

/-- The audio-graph state touched by `resetOscillators`: the master gain
node value, the oscillator phases, and the LFO clock origin. -/
structure ResetState where
  masterGain : ℚ
  phases : List ℚ
  lfoStart : ℚ
deriving DecidableEq

/-- The volume captured at the start of a reset:
`currentVol = masterMuted ? 0 : masterVolume`. -/
def capturedVol (masterMuted : Bool) (masterVolume : ℚ) : ℚ :=
  if masterMuted then 0 else masterVolume

/-- The synchronous part of `resetOscillators`: master gain to 0, every
oscillator phase to 0, LFO clock origin to `now`. -/
def resetImmediate (s : ResetState) (now : ℚ) : ResetState :=
  { masterGain := 0, phases := s.phases.map fun _ => 0, lfoStart := now }

/-- The delayed restore step of `resetOscillators`: write the captured
volume back into the master gain. -/
def restoreGain (s : ResetState) (vol : ℚ) : ResetState :=
  { s with masterGain := vol }

/-! ## LFO Modulation Engine (`animateLFO`), over the reals -/

/-- One channel of the `animateLFO` tick: bypass when `amount == 0`,
otherwise `lfoValue = sin(elapsed * rate * 2π)`,
`modulationRange = min(maxUp, maxDown, 0.5) * 2 * amount`, and the
result is `baseVol + lfoValue * (modulationRange / 2)` clamped to `[0, 1]`. -/
noncomputable def animateLFOChannel (baseVol rate amount elapsed : ℝ) : ℝ :=
  if amount = 0 then baseVol
  else
    let lfoValue := Real.sin (elapsed * rate * 2 * Real.pi)
    let maxUp := 1 - baseVol
    let maxDown := baseVol
    let modulationRange := min (min maxUp maxDown) 0.5 * 2 * amount
    let modulation := lfoValue * (modulationRange / 2)
    max 0 (min 1 (baseVol + modulation))

/-- One `animateLFO` tick over all channels: channel `idx` is modulated
from its base volume, LFO rate and LFO amount. -/
noncomputable def animateLFOTick (volumes rates amounts : List ℝ) (elapsed : ℝ) : List ℝ :=
  volumes.mapIdx fun idx baseVol =>
    animateLFOChannel baseVol (rates.getD idx 0) (amounts.getD idx 0) elapsed

/-- Modelled from the spec: per-tick modulated volume. If `lfoDepth == 0`
the result is `baseVolume`; otherwise `lfoValue = sin(2π·lfoRate·elapsed)`,
`swing = min(1 − baseVolume, baseVolume, 0.5) · 2 · lfoDepth`, and the
result is `clamp(baseVolume + lfoValue · swing/2, 0, 1)`. -/
noncomputable def lfoSpecModulated (baseVolume lfoRate lfoDepth elapsed : ℝ) : ℝ :=
  if lfoDepth = 0 then baseVolume
  else
    let lfoValue := Real.sin (2 * Real.pi * lfoRate * elapsed)
    let swing := min (min (1 - baseVolume) baseVolume) 0.5 * 2 * lfoDepth
    max 0 (min 1 (baseVolume + lfoValue * (swing / 2)))

/-! ## Helper lemmas -/

/-- `getD` of a `mapIdx`, at an index inside the list. -/
theorem getD_mapIdx_of_lt {α β : Type} (l : List α) (f : ℕ → α → β) (i : ℕ)
    (hi : i < l.length) (d : β) (e : α) :
    (l.mapIdx f).getD i d = f i (l.getD i e) := by
  have hlen : i < (l.mapIdx f).length := by
    rw [List.length_mapIdx]
    exact hi
  rw [List.getD_eq_getElem _ _ hlen, List.getD_eq_getElem _ _ hi]
  exact List.get_mapIdx l f i hi hlen

/-- One guard tick never increases the master volume. -/
theorem guardStep_le (mv : ℚ) (f : List ℚ) : guardStep mv f ≤ mv := by
  unfold guardStep
  split_ifs with h
  · exact max_le (le_of_lt h.2) (by linarith [h.2])
  · exact le_refl mv

/-- A frame whose samples all have magnitude at most 0.95 is not
flagged as clipping. -/
theorem isClipping_eq_false {f : List ℚ} (h : ∀ x ∈ f, |x| ≤ 0.95) :
    isClipping f = false := by
  simp only [isClipping, List.any_eq_false, decide_eq_true_eq, not_lt]
  exact h

/-! ## Claim theorems -/

/-- Claim C1: for bpm in [1,300], root in [20,2000] and any ratio table,
entry 0 of the frequency model is the root frequency, and every other
entry `i` is `root + (bpm/60) * R[i]`. -/
theorem frequency_model (root bpm : ℚ) (R : List ℚ)
    (hb1 : 1 ≤ bpm) (hb2 : bpm ≤ 300) (hr1 : 20 ≤ root) (hr2 : root ≤ 2000)
    (i : ℕ) (hi : i < R.length) :
    (calculateFrequencies root bpm R).getD 0 0 = root ∧
    (i ≠ 0 → (calculateFrequencies root bpm R).getD i 0 = root + bpm / 60 * R.getD i 0) := by
  constructor
  · rw [calculateFrequencies,
      getD_mapIdx_of_lt R _ 0 (Nat.lt_of_le_of_lt (Nat.zero_le i) hi) 0 0]
    simp
  · intro hne
    rw [calculateFrequencies, getD_mapIdx_of_lt R _ i hi 0 0]
    simp [hne]

/-- Witness for C1: the ratio table of the app at bpm 60, root 440,
channel 3 (ratio 1). -/
theorem frequency_model_witness :
    ((1:ℚ) ≤ 60 ∧ (60:ℚ) ≤ 300 ∧ (20:ℚ) ≤ 440 ∧ (440:ℚ) ≤ 2000 ∧ 3 < beatRatios.length) ∧
    (calculateFrequencies 440 60 beatRatios).getD 0 0 = 440 ∧
    (calculateFrequencies 440 60 beatRatios).getD 3 0 = 440 + 60 / 60 * beatRatios.getD 3 0 := by
  refine ⟨by norm_num [beatRatios], ?_⟩
  have h := frequency_model 440 60 beatRatios (by norm_num) (by norm_num)
    (by norm_num) (by norm_num) 3 (by norm_num [beatRatios])
  exact ⟨h.1, h.2 (by norm_num)⟩

/-- Claim C3: a single guard correction never increases the master
volume, whatever the analyser frame holds. -/
theorem guard_never_increases (masterVolume : ℚ) (frame : List ℚ) :
    guardStep masterVolume frame ≤ masterVolume :=
  guardStep_le masterVolume frame

/-- Claim C5: when every sample of every frame has magnitude at most
0.95, the guard leaves the master volume unchanged over any number of
consecutive ticks. -/
theorem guard_noop (frames : List (List ℚ)) (masterVolume : ℚ)
    (h : ∀ f ∈ frames, ∀ x ∈ f, |x| ≤ 0.95) :
    guardTicks frames masterVolume = masterVolume := by
  induction frames generalizing masterVolume with
  | nil => rfl
  | cons f fs ih =>
      have hstep : guardStep masterVolume f = masterVolume := by
        unfold guardStep
        rw [isClipping_eq_false (h f (by simp))]
        simp
      simp only [guardTicks, List.foldl_cons] at ih ⊢
      rw [hstep]
      exact ih masterVolume fun g hg => h g (List.mem_cons_of_mem f hg)

/-- Witness for C5: two quiet frames leave a master volume of 0.3
untouched. -/
theorem guard_noop_witness :
    (∀ f ∈ [[(1:ℚ)/2], [(9:ℚ)/10]], ∀ x ∈ f, |x| ≤ 0.95) ∧
    guardTicks [[(1:ℚ)/2], [(9:ℚ)/10]] (3/10) = 3/10 := by
  have hq : ∀ f ∈ [[(1:ℚ)/2], [(9:ℚ)/10]], ∀ x ∈ f, |x| ≤ 0.95 := by
    intro f hf x hx
    fin_cases hf <;> fin_cases hx <;> norm_num [abs_le]
  exact ⟨hq, guard_noop _ _ hq⟩

/-- Claim C6 (code bug): on a long-gap tap, `handleTapTempo` points
the ref at a fresh empty array but pushes the new tap onto the old
aliased array, so the estimate is computed from the discarded taps plus
the new tap and the persistent buffer ends empty, losing the new tap;
the 5-tap scenario of the spec therefore ends at bpm 45, not 60. -/
theorem tap_reset_code_bug :
    recordTapCode [(0:ℚ), 500, 1000] 4000 = ([], some 45) ∧
    tapSession [(0:ℚ), 500, 1000, 4000, 5000] = ([5000], some 45) ∧
    (45 : ℤ) ≠ 60 := by
  refine ⟨?_, ?_, by decide⟩
  · norm_num [recordTapCode, round_eq]
  · norm_num [tapSession, recordTapCode, round_eq]

/-- Claim C7 (code bug): on a reset call the code writes an estimate
although the persistent buffer ends with fewer than two entries, so the
estimate/none dichotomy over the post-call buffer fails; the non-reset
cases of the claim do hold of the code: four taps 1000 ms apart give
60, a single tap gives none. -/
theorem tap_estimate_code_bug :
    (recordTapCode [(0:ℚ), 500, 1000] 4000).1.length < 2 ∧
    (recordTapCode [(0:ℚ), 500, 1000] 4000).2 = some 45 ∧
    (tapSession [(0:ℚ), 1000, 2000, 3000]).2 = some 60 ∧
    (tapSession [(0:ℚ)]).2 = none := by
  refine ⟨?_, ?_, ?_, ?_⟩ <;> norm_num [tapSession, recordTapCode, round_eq]

/-- Claim C8: the oscilloscope shows `min (floor (length / timeScale))
length` points, point `i` sits at `x = i * (width / samplesToShow)`
and at the height given by normalizing the sample via `(v + 1) / 2`;
a 2048-sample frame shows 1024 points at timeScale 2 and 2048 (capped)
at timeScale 0.5. -/
theorem osc_sampler (data : List ℚ) (timeScale width height : ℚ) (hts : 0 < timeScale)
    (i : ℕ) (hi : i < samplesToShow data.length timeScale) :
    (samplePoints data timeScale width height).length = samplesToShow data.length timeScale ∧
    (samplePoints data timeScale width height).getD i (0, 0) =
      ((i : ℚ) * (width / (samplesToShow data.length timeScale : ℚ)),
        ((data.getD i 0 + 1) / 2) * height) ∧
    samplesToShow 2048 2 = 1024 ∧
    samplesToShow 2048 (1/2) = 2048 := by
  refine ⟨?_, ?_, ?_, ?_⟩
  · simp [samplePoints]
  · have hlen : i < (samplePoints data timeScale width height).length := by
      simpa [samplePoints] using hi
    rw [List.getD_eq_getElem _ _ hlen]
    simp only [samplePoints]
    rw [List.getElem_map, List.getElem_range]
  · norm_num [samplesToShow]
    rfl
  · norm_num [samplesToShow]

/-- Witness for C8: a two-sample frame at timeScale 1 shows both
samples; point 1 sits at the expected position. -/
theorem osc_sampler_witness :
    ((0:ℚ) < 1 ∧ 1 < samplesToShow ([(1:ℚ)/2, -(1/2)]).length 1) ∧
    (samplePoints [(1:ℚ)/2, -(1/2)] 1 800 156).getD 1 (0, 0) =
      (((1:ℕ) : ℚ) * (800 / (samplesToShow ([(1:ℚ)/2, -(1/2)]).length 1 : ℚ)),
        (([(1:ℚ)/2, -(1/2)].getD 1 0 + 1) / 2) * 156) := by
  have hi : 1 < samplesToShow ([(1:ℚ)/2, -(1/2)]).length 1 := by
    norm_num [samplesToShow]
  exact ⟨⟨by norm_num, hi⟩, (osc_sampler [(1:ℚ)/2, -(1/2)] 1 800 156 (by norm_num) 1 hi).2.1⟩

/-- Claim C10: two resets in immediate succession leave every
oscillator phase at zero and the LFO clock origin at the time of the
second call; when the master is muted the restore step writes 0, a no-op. -/
theorem reset_idempotent (s : ResetState) (t1 t2 mv : ℚ) (mm : Bool) :
    (∀ p ∈ (restoreGain (restoreGain (resetImmediate (resetImmediate s t1) t2)
        (capturedVol mm mv)) (capturedVol mm mv)).phases, p = 0) ∧
    (restoreGain (restoreGain (resetImmediate (resetImmediate s t1) t2)
        (capturedVol mm mv)) (capturedVol mm mv)).lfoStart = t2 ∧
    (mm = true →
      restoreGain (resetImmediate (resetImmediate s t1) t2) (capturedVol mm mv) =
        resetImmediate (resetImmediate s t1) t2) := by
  refine ⟨?_, rfl, ?_⟩
  · intro p hp
    simp only [restoreGain, resetImmediate, List.mem_map] at hp
    obtain ⟨x, hx, hx0⟩ := hp
    exact hx0.symm
  · intro hmm
    rw [hmm]
    rfl

/-- Witness for C10: a concrete muted double reset. -/
theorem reset_idempotent_witness :
    (restoreGain (resetImmediate (resetImmediate ⟨(3:ℚ)/10, [10, 20], 5⟩ 100) 101)
        (capturedVol true (3/10)) =
      resetImmediate (resetImmediate ⟨(3:ℚ)/10, [10, 20], 5⟩ 100) 101) ∧
    (restoreGain (restoreGain (resetImmediate (resetImmediate ⟨(3:ℚ)/10, [10, 20], 5⟩ 100) 101)
        (capturedVol true (3/10))) (capturedVol true (3/10))).lfoStart = 101 :=
  ⟨(reset_idempotent ⟨(3:ℚ)/10, [10, 20], 5⟩ 100 101 (3/10) true).2.2 rfl,
   (reset_idempotent ⟨(3:ℚ)/10, [10, 20], 5⟩ 100 101 (3/10) true).2.1⟩

/-- On a clipping frame, a guard tick starting at or above the floor
applies exactly the correction `max 0.1 (mv * 0.95)`. -/
theorem guardStep_clip (mv : ℚ) (f : List ℚ) (hc : isClipping f = true) (hm : 0.1 ≤ mv) :
    guardStep mv f = max 0.1 (mv * 0.95) := by
  rcases eq_or_lt_of_le hm with heq | hlt
  · unfold guardStep
    rw [if_neg fun hand => absurd hand.2 (by rw [← heq]; exact lt_irrefl _), ← heq]
    symm
    exact max_eq_left (by norm_num)
  · unfold guardStep
    rw [if_pos ⟨hc, hlt⟩]

/-- Closed form of a clipping burst: after `n` all-clipping ticks the
master volume is `max 0.1 (0.95 ^ n * mv)`. -/
theorem guardTicks_closed :
    ∀ (frames : List (List ℚ)) (mv : ℚ), (∀ f ∈ frames, isClipping f = true) →
      0.1 ≤ mv → guardTicks frames mv = max 0.1 (0.95 ^ frames.length * mv) := by
  intro frames
  induction frames with
  | nil =>
      intro mv _ hm
      simp only [guardTicks, List.foldl_nil, List.length_nil, pow_zero, one_mul]
      exact (max_eq_right hm).symm
  | cons f fs ih =>
      intro mv hc hm
      have hstep : guardStep mv f = max 0.1 (mv * 0.95) :=
        guardStep_clip mv f (hc f (by simp)) hm
      have hrest := ih (max 0.1 (mv * 0.95))
        (fun g hg => hc g (List.mem_cons_of_mem f hg)) (le_max_left _ _)
      simp only [guardTicks, List.foldl_cons] at hrest ⊢
      rw [hstep, hrest, List.length_cons,
        mul_max_of_nonneg _ _ (by positivity : (0:ℚ) ≤ 0.95 ^ fs.length),
        ← max_assoc,
        max_eq_left (mul_le_of_le_one_left (by norm_num) (pow_le_one₀ (by norm_num) (by norm_num))),
        show (0.95:ℚ) ^ fs.length * (mv * 0.95) = 0.95 ^ (fs.length + 1) * mv from by ring]

/-- Claim C4 (amended): under a sustained clipping burst with no user
volume changes and an initial master volume in [0.1, 1], the per-tick
values are non-increasing, each tick applies exactly one correction
`mv := max 0.1 (mv * 0.95)`, the value stays at or above the 0.1 floor,
and from 45 ticks on it equals the floor exactly. -/
theorem clipping_burst (frames : List (List ℚ)) (mv : ℚ) (n : ℕ)
    (hc : ∀ f ∈ frames, isClipping f = true) (h1 : 0.1 ≤ mv) (h2 : mv ≤ 1) :
    guardTicks (frames.take (n+1)) mv ≤ guardTicks (frames.take n) mv ∧
    0.1 ≤ guardTicks (frames.take n) mv ∧
    (n < frames.length →
      guardTicks (frames.take (n+1)) mv = max 0.1 (guardTicks (frames.take n) mv * 0.95)) ∧
    (45 ≤ frames.length → 45 ≤ n → guardTicks (frames.take n) mv = 0.1) := by
  have hq0 : (0:ℚ) ≤ 0.95 := by norm_num
  have hq1 : (0.95:ℚ) ≤ 1 := by norm_num
  have hmv0 : (0:ℚ) ≤ mv := le_trans (by norm_num) h1
  have key : ∀ m : ℕ,
      guardTicks (frames.take m) mv = max 0.1 (0.95 ^ (min m frames.length) * mv) := by
    intro m
    rw [guardTicks_closed (frames.take m) mv
      (fun f hf => hc f (List.take_subset m frames hf)) h1, List.length_take]
  refine ⟨?_, ?_, ?_, ?_⟩
  · rw [key n, key (n+1)]
    exact max_le_max (le_refl _)
      (mul_le_mul_of_nonneg_right
        (pow_le_pow_of_le_one hq0 hq1 (min_le_min (Nat.le_succ n) (le_refl _))) hmv0)
  · rw [key n]
    exact le_max_left _ _
  · intro hlt
    rw [key n, key (n+1), min_eq_left (le_of_lt hlt), min_eq_left hlt,
      max_mul_of_nonneg _ _ hq0, ← max_assoc,
      max_eq_left (by norm_num : (0.1:ℚ) * 0.95 ≤ 0.1),
      show (0.95:ℚ) ^ n * mv * 0.95 = 0.95 ^ (n + 1) * mv from by ring]
  · intro hL hn
    rw [key n]
    have hpow : (0.95:ℚ) ^ (min n frames.length) * mv ≤ 0.1 := by
      calc (0.95:ℚ) ^ (min n frames.length) * mv
          ≤ 0.95 ^ (min n frames.length) * 1 :=
            mul_le_mul_of_nonneg_left h2 (by positivity)
        _ = 0.95 ^ (min n frames.length) := mul_one _
        _ ≤ 0.95 ^ 45 := pow_le_pow_of_le_one hq0 hq1 (le_min hn hL)
        _ ≤ 0.1 := by norm_num
    exact max_eq_left hpow

/-- Witness for C4 (amended): a 45-tick all-clipping burst starting at
master volume 0.3 ends exactly at the 0.1 floor. -/
theorem clipping_burst_witness :
    ((∀ f ∈ List.replicate 45 [(1:ℚ)], isClipping f = true) ∧
      (0.1:ℚ) ≤ 0.3 ∧ (0.3:ℚ) ≤ 1) ∧
    guardTicks ((List.replicate 45 [(1:ℚ)]).take 45) 0.3 = 0.1 := by
  have hc : ∀ f ∈ List.replicate 45 [(1:ℚ)], isClipping f = true := by
    intro f hf
    rw [List.eq_of_mem_replicate hf]
    norm_num [isClipping]
  exact ⟨⟨hc, by norm_num, by norm_num⟩,
    (clipping_burst (List.replicate 45 [(1:ℚ)]) 0.3 45 hc (by norm_num)
      (by norm_num)).2.2.2 (by simp) (le_refl 45)⟩

/-- Counterexample for C4 as stated: with an initial master volume of
0.05 (allowed by the data model, which only demands [0,1]) a sustained
all-clipping burst never fires the guard, so the sequence sits strictly
below 0.1 for ever and cannot converge to 0.1. -/
theorem clipping_burst_counterexample :
    (∀ f ∈ [[(1:ℚ)], [(1:ℚ)], [(1:ℚ)]], isClipping f = true) ∧
    guardTicks [[(1:ℚ)], [(1:ℚ)], [(1:ℚ)]] (1/20) = 1/20 ∧
    (1/20 : ℚ) < 0.1 := by
  refine ⟨?_, ?_, by norm_num⟩
  · intro f hf
    fin_cases hf <;> norm_num [isClipping]
  · norm_num [guardTicks, guardStep, isClipping]

/-- Each channel of the LFO tick computes exactly the per-tick spec
modulated volume. -/
theorem animateLFOChannel_eq_spec (baseVol rate amount elapsed : ℝ) :
    animateLFOChannel baseVol rate amount elapsed =
      lfoSpecModulated baseVol rate amount elapsed := by
  unfold animateLFOChannel lfoSpecModulated
  by_cases h : amount = 0
  · simp [h]
  · rw [if_neg h, if_neg h]
    dsimp only
    rw [show elapsed * rate * 2 * Real.pi = 2 * Real.pi * rate * elapsed from by ring]

/-- Claim C2: for every channel of an LFO tick, the modulated volume
equals the per-tick algorithm of the spec (bypass at depth 0, sine of
2π·rate·elapsed, rail-capped swing, defensive clamp). -/
theorem lfo_per_tick (volumes rates amounts : List ℝ) (elapsed : ℝ) (idx : ℕ)
    (h : idx < volumes.length) :
    (animateLFOTick volumes rates amounts elapsed).getD idx 0 =
      lfoSpecModulated (volumes.getD idx 0) (rates.getD idx 0) (amounts.getD idx 0) elapsed := by
  unfold animateLFOTick
  rw [getD_mapIdx_of_lt volumes _ idx h 0 0]
  exact animateLFOChannel_eq_spec _ _ _ _

/-- Witness for C2: a one-channel tick with depth 0. -/
theorem lfo_per_tick_witness :
    0 < ([(1:ℝ)/2]).length ∧
    (animateLFOTick [(1:ℝ)/2] [1] [0] 7).getD 0 0 =
      lfoSpecModulated (([(1:ℝ)/2]).getD 0 0) (([(1:ℝ)]).getD 0 0) (([(0:ℝ)]).getD 0 0) 7 := by
  have h : 0 < ([(1:ℝ)/2]).length := by simp
  exact ⟨h, lfo_per_tick [(1:ℝ)/2] [1] [0] 7 0 h⟩

/-- Claim C9: at elapsed times where the LFO sine reaches +1 and −1,
the two modulated volumes are exactly equidistant from the base
volume. -/
theorem lfo_swing_symmetry (b r d e1 e2 : ℝ)
    (hb0 : 0 ≤ b) (hb1 : b ≤ 1) (hd0 : 0 < d) (hd1 : d ≤ 1)
    (h1 : Real.sin (e1 * r * 2 * Real.pi) = 1)
    (h2 : Real.sin (e2 * r * 2 * Real.pi) = -1) :
    animateLFOChannel b r d e1 - b = b - animateLFOChannel b r d e2 := by
  unfold animateLFOChannel
  rw [if_neg (ne_of_gt hd0), if_neg (ne_of_gt hd0)]
  dsimp only
  rw [h1, h2]
  set m := min (min (1 - b) b) (0.5:ℝ) with hm
  have hm0 : 0 ≤ m := le_min (le_min (by linarith) hb0) (by norm_num)
  have hmb : m ≤ b := le_trans (min_le_left _ _) (min_le_right _ _)
  have hmu : m ≤ 1 - b := le_trans (min_le_left _ _) (min_le_left _ _)
  have hmd0 : 0 ≤ m * d := mul_nonneg hm0 (le_of_lt hd0)
  have hmd : m * d ≤ m := mul_le_of_le_one_right hm0 hd1
  rw [show (1:ℝ) * (m * 2 * d / 2) = m * d from by ring,
    show (-1:ℝ) * (m * 2 * d / 2) = -(m * d) from by ring]
  have eplus : max 0 (min 1 (b + m * d)) = b + m * d := by
    rw [min_eq_right (by linarith), max_eq_right (by linarith)]
  have eminus : max 0 (min 1 (b + -(m * d))) = b - m * d := by
    rw [show b + -(m * d) = b - m * d from by ring,
      min_eq_right (by linarith), max_eq_right (by linarith)]
  rw [eplus, eminus]
  ring

/-- Witness for C9: base 0.5, depth 1, rate 1; the sine hits +1 at
elapsed 1/4 and −1 at elapsed −1/4. -/
theorem lfo_swing_symmetry_witness :
    ((0:ℝ) ≤ 1/2 ∧ (1/2:ℝ) ≤ 1 ∧ (0:ℝ) < 1 ∧ (1:ℝ) ≤ 1 ∧
      Real.sin ((1/4 : ℝ) * 1 * 2 * Real.pi) = 1 ∧
      Real.sin ((-(1/4) : ℝ) * 1 * 2 * Real.pi) = -1) ∧
    animateLFOChannel (1/2) 1 1 (1/4) - 1/2 = 1/2 - animateLFOChannel (1/2) 1 1 (-(1/4)) := by
  have hs1 : Real.sin ((1/4 : ℝ) * 1 * 2 * Real.pi) = 1 := by
    rw [show (1/4 : ℝ) * 1 * 2 * Real.pi = Real.pi / 2 from by ring]
    exact Real.sin_pi_div_two
  have hs2 : Real.sin ((-(1/4) : ℝ) * 1 * 2 * Real.pi) = -1 := by
    rw [show (-(1/4) : ℝ) * 1 * 2 * Real.pi = -(Real.pi / 2) from by ring, Real.sin_neg,
      Real.sin_pi_div_two]
  exact ⟨⟨by norm_num, by norm_num, by norm_num, le_refl 1, hs1, hs2⟩,
    lfo_swing_symmetry (1/2) 1 1 (1/4) (-(1/4)) (by norm_num) (by norm_num) (by norm_num)
      (le_refl 1) hs1 hs2⟩
